import Mathlib

/-!
Verification of the `rust-aws-arn` crate (`src/lib.rs`, `src/builder/mod.rs`)
against its natural-language specification.

Modelling conventions:
- a Rust `String` / `&str` is modelled as `List Char` (abbreviated `Str`);
- `str::split(':')` is modelled by `splitOnChar`, `Vec::join(":")` by
  `List.intercalate [sep]`;
- the two `lazy_static` regular expressions `PARTITION` and `IDENTIFIER`
  are modelled by the decidable matchers `partitionMatch` / `identifierMatch`,
  translated character class by character class from the patterns
  `^aws(\-[a-zA-Z][a-zA-Z0-9\-]+)?$` and `^[a-zA-Z][a-zA-Z0-9\-]+$`
  (Rust regex classes `a-z`, `A-Z`, `0-9` are ASCII-only, as are Lean's
  `Char.isAlpha` / `Char.isDigit`);
- Rust `Result<T, ArnError>` becomes `Except ArnError T`; the early-return
  (`?` / `return Err`) control flow becomes `Except.bind` chains;
- the `ext_validation` feature is disabled by default, so `ARN::validate`
  uses the stub `validate::is_registered` that always returns `false`; the
  corresponding final step is therefore omitted (it is `Ok(())`).
-/

set_option autoImplicit false

abbrev Str := List Char

/-- Models Rust `str::split(sep).collect::<Vec<_>>()` for a one-character
separator: `""` gives `[""]`, separators at the ends give empty slices. -/
def splitOnChar (sep : Char) : List Char → List (List Char)
  | [] => [[]]
  | c :: cs =>
    match splitOnChar sep cs with
    | [] => [[]]
    | h :: t => if c = sep then [] :: h :: t else (c :: h) :: t

/-- The `Resource` enum of `src/lib.rs`. -/
inductive Resource : Type
  | Any : Resource
  | Id : Str → Resource
  | Path : Str → Resource
  | TypedId : Str → Str → Resource
  | QTypedId : Str → Str → Str → Resource
  deriving DecidableEq

/-- The `ArnError` enum of `src/lib.rs`. -/
inductive ArnError : Type
  | TooFewComponents
  | MissingPrefix
  | MissingPartition
  | InvalidPartition
  | MissingService
  | InvalidService
  | MissingRegion
  | InvalidRegion
  | RegionWildcardNotAllowed
  | MissingAccountId
  | InvalidAccountId
  | AccountIdWildcardNotAllowed
  | MissingResource
  | InvalidResource : Str → ArnError
  | ResourceWildcardNotAllowed
  deriving DecidableEq

deriving instance DecidableEq for Except

/-- The `ARN` struct of `src/lib.rs`. -/
structure ARN : Type where
  partition : Option Str
  service : Str
  region : Option Str
  account_id : Option Str
  resource : Resource
  deriving DecidableEq

/-- The character class `[a-zA-Z0-9\-]` shared by both regular expressions. -/
def isIdentChar (c : Char) : Bool := c.isAlphanum || c = '-'

/-- Models `IDENTIFIER.is_match`, pattern `^[a-zA-Z][a-zA-Z0-9\-]+$`:
one ASCII letter followed by one or more letters, digits or hyphens. -/
def identifierMatch : Str → Bool
  | [] => false
  | c :: rest => c.isAlpha && !rest.isEmpty && rest.all isIdentChar

/-- Models `PARTITION.is_match`, pattern `^aws(\-[a-zA-Z][a-zA-Z0-9\-]+)?$`:
exactly `aws`, or `aws-` followed by a letter and one or more
letters, digits or hyphens. -/
def partitionMatch : Str → Bool
  | 'a' :: 'w' :: 's' :: rest =>
    match rest with
    | [] => true
    | '-' :: c :: cs => c.isAlpha && !cs.isEmpty && cs.all isIdentChar
    | _ => false
  | _ => false

/-- The free function `must_not_contain` of `src/lib.rs`: error when `s`
contains any of `chars`; the error carries the component label `c`. -/
def must_not_contain (s : Str) (c : Str) (chars : List Char) : Except ArnError Unit :=
  if s.any (fun x => chars.contains x) then Except.error (ArnError.InvalidResource c)
  else Except.ok ()

/-- `Resource::validate` of `src/lib.rs` (the catch-all arm covers `Any`). -/
def Resource.validate : Resource → Except ArnError Unit
  | Resource.Id i => must_not_contain i ("id".data) [':', '/', '*']
  | Resource.Path p => must_not_contain p ("path".data) [':']
  | Resource.TypedId t i =>
    (must_not_contain t ("the_type".data) [':', '/', '*']).bind fun _ =>
      must_not_contain i ("id".data) [':', '/']
  | Resource.QTypedId t i q =>
    (must_not_contain t ("the_type".data) [':', '/', '*']).bind fun _ =>
      (must_not_contain i ("id".data) [':', '/']).bind fun _ =>
        must_not_contain q ("qualifier".data) [':', '/', '*']
  | Resource.Any => Except.ok ()

/-- The partition step of `ARN::validate`: absent partitions pass, present
ones must match `PARTITION`. -/
def checkPartition : Option Str → Except ArnError Unit
  | none => Except.ok ()
  | some p => if partitionMatch p then Except.ok () else Except.error ArnError.InvalidPartition

/-- The service step of `ARN::validate`: must match `IDENTIFIER`. -/
def checkService (s : Str) : Except ArnError Unit :=
  if identifierMatch s then Except.ok () else Except.error ArnError.InvalidService

/-- The region step of `ARN::validate`: absent regions pass, present ones
must match `IDENTIFIER`. -/
def checkRegion : Option Str → Except ArnError Unit
  | none => Except.ok ()
  | some r => if identifierMatch r then Except.ok () else Except.error ArnError.InvalidRegion

/-- The account step of `ARN::validate`: absent accounts pass, present ones
must have length 12 and consist of ASCII digits. Rust `len()` is byte
length, but an all-ASCII-digit string has byte length equal to character
count, and any string of 12 non-digit-only characters is rejected either
way, so character length is a faithful model of the accept/reject boundary. -/
def checkAccount : Option Str → Except ArnError Unit
  | none => Except.ok ()
  | some a =>
    if a.length = 12 && a.all Char.isDigit then Except.ok ()
    else Except.error ArnError.InvalidAccountId

/-- `ARN::validate` of `src/lib.rs`: the early-return sequence of field
checks, ending with `Resource::validate`. The `ext_validation` stub makes
`is_registered` constantly false, so the final feature-gated step is a
no-op and is omitted. -/
def ARN.validate (a : ARN) : Except ArnError Unit :=
  (checkPartition a.partition).bind fun _ =>
    (checkService a.service).bind fun _ =>
      (checkRegion a.region).bind fun _ =>
        (checkAccount a.account_id).bind fun _ =>
          a.resource.validate

/-- The `Display` impl for `Resource` in `src/lib.rs`. -/
def Resource.toStr : Resource → Str
  | Resource.Any => "*".data
  | Resource.Id i => i
  | Resource.Path p => p
  | Resource.TypedId t i => t ++ ':' :: i
  | Resource.QTypedId t i q => t ++ ':' :: (i ++ ':' :: q)

/-- The `Display` impl for `ARN` in `src/lib.rs`: a six-element vector
joined with `":"`, substituting `"aws"` for an absent partition and the
empty string for absent region / account id. -/
def ARN.toStr (a : ARN) : Str :=
  List.intercalate [':']
    [ "arn".data,
      a.partition.getD ("aws".data),
      a.service,
      a.region.getD [],
      a.account_id.getD [],
      a.resource.toStr ]

/-- The `FromStr` impl for `Resource` in `src/lib.rs`. -/
def Resource.fromStr (s : Str) : Except ArnError Resource :=
  if s = [] then Except.error ArnError.MissingResource
  else if s = "*".data then Except.ok Resource.Any
  else if ':' ∈ s then
    let parts := splitOnChar ':' s
    if parts.length = 2 then
      Except.ok (Resource.TypedId (parts.getD 0 []) (parts.getD 1 []))
    else if parts.length = 3 then
      Except.ok (Resource.QTypedId (parts.getD 0 []) (parts.getD 1 []) (parts.getD 2 []))
    else Except.error (ArnError.InvalidResource s)
  else if '/' ∈ s then Except.ok (Resource.Path s)
  else Except.ok (Resource.Id s)

/-- The `FromStr` impl for `ARN` in `src/lib.rs`: split on `':'`, check the
slice count and the `arn` prefix, parse slices `5..` re-joined with `":"`
as the resource (its error propagates before validation, matching the `?`
inside the struct literal), then run `validate` on the assembled value.
`assembleARN` is the `new_arn` struct literal of the Rust code. -/
def assembleARN (parts : List Str) (res : Resource) : ARN :=
  { partition := if parts.getD 1 [] = [] then none else some (parts.getD 1 []),
    service := parts.getD 2 [],
    region := if parts.getD 3 [] = [] then none else some (parts.getD 3 []),
    account_id := if parts.getD 4 [] = [] then none else some (parts.getD 4 []),
    resource := res }

def ARN.fromStr (s : Str) : Except ArnError ARN :=
  let parts := splitOnChar ':' s
  if parts.length < 6 then Except.error ArnError.TooFewComponents
  else if parts.getD 0 [] ≠ "arn".data then Except.error ArnError.MissingPrefix
  else
    match Resource.fromStr (List.intercalate [':'] (parts.drop 5)) with
    | Except.error e => Except.error e
    | Except.ok res =>
      match (assembleARN parts res).validate with
      | Except.ok _ => Except.ok (assembleARN parts res)
      | Except.error e => Except.error e

/-- The `ResourceBuilder` struct of `src/builder/mod.rs`. -/
structure ResourceBuilder : Type where
  resource : Resource
  deriving DecidableEq

/-- `ResourceBuilder::new` of `src/builder/mod.rs`. The Rust function
panics when the argument contains `':'` (it returns `Self`, not a
`Result`); the panic is modelled as `none`. -/
def ResourceBuilder.new (id_or_path : Str) : Option ResourceBuilder :=
  if ':' ∈ id_or_path then none
  else if '/' ∈ id_or_path then some (ResourceBuilder.mk (Resource.Path id_or_path))
  else some (ResourceBuilder.mk (Resource.Id id_or_path))

/-- Printable ASCII (strictly after 0x1F and strictly before 0x7F). -/
def printableAscii (c : Char) : Bool :=
  0x1F < c.toNat && c.toNat < 0x7F

/-- The ARN with an empty resource id used to exhibit the validation gap
of C10. -/
def emptyIdArn : ARN :=
  { partition := none, service := "s3".data, region := none, account_id := none,
    resource := Resource.Id [] }

/-- The parse of `"arn:aws:s3:us-east-1:123456789012:thing"`, used as the
concrete instance for the round-trip witness. -/
def c1Arn : ARN :=
  { partition := some ("aws".data), service := "s3".data,
    region := some ("us-east-1".data), account_id := some ("123456789012".data),
    resource := Resource.Id ("thing".data) }

/-- The parse of `"arn:aws:s3:::x"`, used as the concrete instance for the
partition-rule witness. -/
def c6Arn : ARN :=
  { partition := some ("aws".data), service := "s3".data, region := none,
    account_id := none, resource := Resource.Id ("x".data) }


/-- Modelled from the spec: the `ResourceIdentifier` character invariant of
section 3 — non-empty, every character strictly after 0x1F and strictly
before 0x7F. The `ResourceIdentifier` type, its `parse` and
`replace_variables` are not present in the code under `src/` (only the
spec describes them), so they are modelled from the specification text. -/
def riValid (s : Str) : Bool :=
  !s.isEmpty && s.all printableAscii

/-- Modelled from the spec: `ResourceIdentifier::parse` (section 4.3) —
fails with `InvalidResource` carrying the original string exactly when the
string is empty or has a control or non-ASCII character. -/
def riParse (s : Str) : Except ArnError Str :=
  if riValid s then Except.ok s else Except.error (ArnError.InvalidResource s)

/-- Modelled from the spec: lookup in the `Mapping<String,String>` context
argument of `replace_variables`. -/
def lookupCtx : List (Str × Str) → Str → Option Str
  | [], _ => none
  | (k, v) :: t, n => if k = n then some v else lookupCtx t n

/-- Modelled from the spec: scanning for the end of a `${name}` variable —
the name is a sequence of characters other than `'$'`, `'{'` and `'}'`
(section 3), terminated by `'}'`; returns the name and the remainder
(paired with the remainder's length bound, used for termination). -/
def findVarEnd : (cs : List Char) → Option { p : List Char × List Char // p.2.length < cs.length }
  | [] => none
  | c :: cs =>
    if c = '}' then some ⟨([], cs), by simp⟩
    else if c = '$' ∨ c = '{' then none
    else
      match findVarEnd cs with
      | some ⟨p, hp⟩ => some ⟨(c :: p.1, p.2), by simp only [List.length_cons]; omega⟩
      | none => none

/-- Modelled from the spec: the left-to-right scan-and-replace of `${name}`
placeholders (section 4.3): a matched placeholder whose non-empty name is a
context key is replaced by the context value, a placeholder with an unknown
name is left intact, and every other character is copied; where no
well-formed placeholder starts, the `'$'` is copied and scanning resumes at
the next character. -/
def substVars (ctx : List (Str × Str)) : List Char → List Char
  | [] => []
  | c :: cs =>
    if c = '$' then
      match cs with
      | '{' :: cs2 =>
        match findVarEnd cs2 with
        | some ⟨p, _hp⟩ =>
          if p.1.isEmpty then '$' :: substVars ctx ('{' :: cs2)
          else
            (match lookupCtx ctx p.1 with
             | some v => v
             | none => '$' :: '{' :: (p.1 ++ ['}'])) ++ substVars ctx p.2
        | none => '$' :: substVars ctx ('{' :: cs2)
      | cs3 => '$' :: substVars ctx cs3
    else c :: substVars ctx cs
termination_by l => l.length
decreasing_by
  all_goals simp_wf
  all_goals omega

/-- Modelled from the spec: `replace_variables` (section 4.3) — substitute,
then re-validate by re-running `parse`; if substitution produced an invalid
string the operation fails with `InvalidResource`. -/
def replaceVariables (ctx : List (Str × Str)) (r : Str) : Except ArnError Str :=
  riParse (substVars ctx r)

/-- A decomposition of a resource string into literal chunks and `${name}`
placeholders, used to state what substitution does on well-formed input. -/
inductive Seg : Type
  | lit : Str → Seg
  | var : Str → Seg
  deriving DecidableEq

/-- Rendering a segment back to text: a literal renders as itself and
`var n` renders as the placeholder `${n}`. -/
def Seg.render : Seg → Str
  | Seg.lit s => s
  | Seg.var n => '$' :: '{' :: (n ++ ['}'])

/-- The effect of substitution on one segment: known variables become the
literal context value, unknown variables stay placeholders. -/
def Seg.subst (ctx : List (Str × Str)) : Seg → Seg
  | Seg.lit s => Seg.lit s
  | Seg.var n =>
    match lookupCtx ctx n with
    | some v => Seg.lit v
    | none => Seg.var n

/-- Well-formedness of a segment: a literal contains no `'$'`; a variable
name is non-empty and avoids `'$'`, `'{'` and `'}'`. -/
def Seg.wf : Seg → Bool
  | Seg.lit s => !s.contains '$'
  | Seg.var n => !n.isEmpty && n.all fun c => !(c == '$') && !(c == '{') && !(c == '}')

/-- Rendering a list of segments. -/
def renderSegs (segs : List Seg) : Str :=
  (segs.map Seg.render).flatten

theorem splitOnChar_exists (sep : Char) :
    ∀ l : List Char, ∃ hd tl, splitOnChar sep l = hd :: tl
  | [] => ⟨[], [], rfl⟩
  | c :: cs => by
    obtain ⟨hd, tl, h⟩ := splitOnChar_exists sep cs
    by_cases hc : c = sep
    · exact ⟨[], hd :: tl, by simp only [splitOnChar, h]; simp [hc]⟩
    · exact ⟨c :: hd, tl, by simp only [splitOnChar, h]; simp [hc]⟩

theorem splitOnChar_ne_nil (sep : Char) (l : List Char) : splitOnChar sep l ≠ [] := by
  obtain ⟨hd, tl, h⟩ := splitOnChar_exists sep l
  simp [h]

/-- Unfolds `splitOnChar` on a cons cell once the tail's slices are known. -/
theorem splitOnChar_cons (sep c : Char) (cs hd : List Char) (tl : List (List Char))
    (h : splitOnChar sep cs = hd :: tl) :
    splitOnChar sep (c :: cs) =
      if c = sep then [] :: hd :: tl else (c :: hd) :: tl := by
  simp only [splitOnChar, h]

theorem intercalate_cons_cons (sep : List Char) (x y : Str) (tl : List Str) :
    List.intercalate sep (x :: y :: tl) = x ++ sep ++ List.intercalate sep (y :: tl) := by
  simp [List.intercalate, List.intersperse]

theorem intercalate_cons_head (sep : List Char) (c : Char) (hd : Str) (tl : List Str) :
    List.intercalate sep ((c :: hd) :: tl) = c :: List.intercalate sep (hd :: tl) := by
  cases tl <;> simp [List.intercalate, List.intersperse]

/-- Joining the slices of `splitOnChar` back with the separator recovers
the original string (the `join`/`split` inverse law). -/
theorem intercalate_splitOnChar (sep : Char) (l : List Char) :
    List.intercalate [sep] (splitOnChar sep l) = l := by
  induction l with
  | nil => simp [splitOnChar, List.intercalate, List.intersperse]
  | cons c cs ih =>
    obtain ⟨hd, tl, h⟩ := splitOnChar_exists sep cs
    rw [splitOnChar_cons sep c cs hd tl h]
    rw [h] at ih
    by_cases hc : c = sep
    · subst hc
      rw [if_pos rfl, intercalate_cons_cons, ih]
      simp
    · rw [if_neg hc, intercalate_cons_head, ih]

/-- Splitting a string that starts with a separator-free slice followed by
the separator peels off exactly that slice. -/
theorem splitOnChar_append (sep : Char) :
    ∀ p rest : List Char, sep ∉ p →
      splitOnChar sep (p ++ sep :: rest) = p :: splitOnChar sep rest
  | [], rest, _ => by
    obtain ⟨hd, tl, h⟩ := splitOnChar_exists sep rest
    rw [List.nil_append, splitOnChar_cons sep sep rest hd tl h, if_pos rfl, ← h]
  | x :: p', rest, hmem => by
    have hx : ¬x = sep := fun e => hmem (e ▸ List.mem_cons_self x p')
    have ih := splitOnChar_append sep p' rest (fun hm => hmem (List.mem_cons_of_mem x hm))
    rw [List.cons_append,
      splitOnChar_cons sep x (p' ++ sep :: rest) p' (splitOnChar sep rest) ih, if_neg hx]

/-- Splitting a separator-free string yields a single slice. -/
theorem splitOnChar_eq_single (sep : Char) :
    ∀ l : List Char, sep ∉ l → splitOnChar sep l = [l]
  | [], _ => rfl
  | c :: cs, h => by
    have hc : ¬c = sep := fun e => h (e ▸ List.mem_cons_self c cs)
    have ih := splitOnChar_eq_single sep cs (fun hm => h (List.mem_cons_of_mem c hm))
    rw [splitOnChar_cons sep c cs cs [] ih, if_neg hc]

/-- The number of slices is the separator count plus one. -/
theorem length_splitOnChar (sep : Char) :
    ∀ l : List Char, (splitOnChar sep l).length = l.count sep + 1
  | [] => by simp [splitOnChar]
  | c :: cs => by
    have ih := length_splitOnChar sep cs
    obtain ⟨hd, tl, h⟩ := splitOnChar_exists sep cs
    rw [splitOnChar_cons sep c cs hd tl h]
    rw [h] at ih
    by_cases hc : c = sep
    · subst hc
      rw [if_pos rfl]
      simp [List.count_cons] at *
      omega
    · rw [if_neg hc]
      simp [List.count_cons, hc] at *
      omega

/-- No slice produced by `splitOnChar` contains the separator. -/
theorem mem_splitOnChar_not_mem (sep : Char) :
    ∀ l p : List Char, p ∈ splitOnChar sep l → sep ∉ p
  | [], p, hp => by
    simp [splitOnChar] at hp
    simp [hp]
  | c :: cs, p, hp => by
    obtain ⟨hd, tl, h⟩ := splitOnChar_exists sep cs
    rw [splitOnChar_cons sep c cs hd tl h] at hp
    by_cases hc : c = sep
    · subst hc
      rw [if_pos rfl] at hp
      rcases List.mem_cons.mp hp with rfl | hp2
      · simp
      · exact mem_splitOnChar_not_mem c cs p (by rw [h]; exact hp2)
    · rw [if_neg hc] at hp
      rcases List.mem_cons.mp hp with rfl | hp2
      · have hhd : sep ∉ hd :=
          mem_splitOnChar_not_mem sep cs hd (by rw [h]; exact List.mem_cons_self hd tl)
        intro hmem
        rcases List.mem_cons.mp hmem with e | e2
        · exact hc e.symm
        · exact hhd e2
      · exact mem_splitOnChar_not_mem sep cs p
          (by rw [h]; exact List.mem_cons_of_mem hd hp2)

/-- Unfolding of a six-element `intercalate`. -/
theorem intercalate_six (a b c d e f : Str) :
    List.intercalate [':'] [a, b, c, d, e, f] =
      a ++ ':' :: (b ++ ':' :: (c ++ ':' :: (d ++ ':' :: (e ++ ':' :: f)))) := by
  simp [List.intercalate, List.intersperse]

/-- A string matching `PARTITION` contains no colon and is non-empty. -/
theorem partitionMatch_spec {p : Str} (h : partitionMatch p = true) :
    (':' ∉ p) ∧ p ≠ [] := by
  unfold partitionMatch at h
  split at h
  · next rest =>
    split at h
    · next =>
      refine ⟨by decide, by simp⟩
    · next c cs =>
      simp only [Bool.and_eq_true, List.all_eq_true] at h
      obtain ⟨⟨hca, hcs⟩, hall⟩ := h
      constructor
      · intro hmem
        simp only [List.mem_cons] at hmem
        rcases hmem with e | e | e | e | e | e2
        · exact absurd e (by decide)
        · exact absurd e (by decide)
        · exact absurd e (by decide)
        · exact absurd e (by decide)
        · rw [← e] at hca; exact absurd hca (by decide)
        · exact absurd (hall _ e2) (by decide)
      · simp
    · exact absurd h (by simp)
  · exact absurd h (by simp)

/-- A string matching `IDENTIFIER` contains no colon and is non-empty. -/
theorem identifierMatch_spec {s : Str} (h : identifierMatch s = true) :
    (':' ∉ s) ∧ s ≠ [] := by
  unfold identifierMatch at h
  split at h
  · exact absurd h (by simp)
  · next c rest =>
    simp only [Bool.and_eq_true, List.all_eq_true] at h
    obtain ⟨⟨hca, hne⟩, hall⟩ := h
    constructor
    · intro hmem
      rcases List.mem_cons.mp hmem with e | e2
      · rw [← e] at hca; exact absurd hca (by decide)
      · exact absurd (hall _ e2) (by decide)
    · simp

theorem checkPartition_none : checkPartition none = Except.ok () := rfl

theorem checkPartition_some_ok_iff (p : Str) :
    checkPartition (some p) = Except.ok () ↔ partitionMatch p = true := by
  simp only [checkPartition]
  split <;> simp [*]

theorem checkService_ok_iff (s : Str) :
    checkService s = Except.ok () ↔ identifierMatch s = true := by
  simp only [checkService]
  split <;> simp [*]

theorem checkRegion_none : checkRegion none = Except.ok () := rfl

theorem checkRegion_some_ok_iff (r : Str) :
    checkRegion (some r) = Except.ok () ↔ identifierMatch r = true := by
  simp only [checkRegion]
  split <;> simp [*]

theorem checkAccount_none : checkAccount none = Except.ok () := rfl

theorem checkAccount_some_ok_iff (a : Str) :
    checkAccount (some a) = Except.ok () ↔
      (a.length = 12 ∧ ∀ c ∈ a, c.isDigit = true) := by
  simp only [checkAccount]
  split
  · next h =>
    simp only [Bool.and_eq_true, decide_eq_true_eq, List.all_eq_true] at h
    exact iff_of_true rfl h
  · next h =>
    simp only [Bool.and_eq_true, decide_eq_true_eq, List.all_eq_true] at h
    simp only [not_and] at h
    constructor
    · intro he; exact absurd he (by simp)
    · intro ⟨h1, h2⟩; exact absurd h2 (h h1)

/-- A string accepted by the account check contains no colon and is
non-empty. -/
theorem checkAccount_spec {a : Str} (h : checkAccount (some a) = Except.ok ()) :
    (':' ∉ a) ∧ a ≠ [] := by
  rw [checkAccount_some_ok_iff] at h
  obtain ⟨hlen, hdig⟩ := h
  constructor
  · intro hmem
    exact absurd (hdig _ hmem) (by decide)
  · intro he
    rw [he] at hlen
    simp at hlen

/-- `ARN::validate` succeeds exactly when all five field checks succeed. -/
theorem validate_ok_iff (a : ARN) :
    a.validate = Except.ok () ↔
      checkPartition a.partition = Except.ok () ∧
      checkService a.service = Except.ok () ∧
      checkRegion a.region = Except.ok () ∧
      checkAccount a.account_id = Except.ok () ∧
      a.resource.validate = Except.ok () := by
  unfold ARN.validate
  cases h1 : checkPartition a.partition with
  | error e => simp [Except.bind]
  | ok u =>
    cases u
    cases h2 : checkService a.service with
    | error e => simp [Except.bind]
    | ok u =>
      cases u
      cases h3 : checkRegion a.region with
      | error e => simp [Except.bind]
      | ok u =>
        cases u
        cases h4 : checkAccount a.account_id with
        | error e => simp [Except.bind]
        | ok u =>
          cases u
          simp [Except.bind]

theorem list_two {α : Type} (d : α) :
    ∀ l : List α, l.length = 2 → l = [l.getD 0 d, l.getD 1 d]
  | [_, _], _ => rfl
  | [], h => by simp only [List.length_nil] at h; omega
  | [_], h => by simp only [List.length_cons, List.length_nil] at h; omega
  | _ :: _ :: _ :: _, h => by
    simp only [List.length_cons] at h
    omega

theorem list_three {α : Type} (d : α) :
    ∀ l : List α, l.length = 3 → l = [l.getD 0 d, l.getD 1 d, l.getD 2 d]
  | [_, _, _], _ => rfl
  | [], h => by simp only [List.length_nil] at h; omega
  | [_], h => by simp only [List.length_cons, List.length_nil] at h; omega
  | [_, _], h => by simp only [List.length_cons, List.length_nil] at h; omega
  | _ :: _ :: _ :: _ :: _, h => by
    simp only [List.length_cons] at h
    omega

theorem intercalate_pair (x y : Str) :
    List.intercalate [':'] [x, y] = x ++ ':' :: y := by
  simp [List.intercalate, List.intersperse]

theorem intercalate_triple (x y z : Str) :
    List.intercalate [':'] [x, y, z] = x ++ ':' :: (y ++ ':' :: z) := by
  simp [List.intercalate, List.intersperse]

/-- A successfully parsed resource displays back to the exact input
string: `Resource::from_str` followed by `Display` is the identity. -/
theorem Resource.toStr_fromStr {s : Str} {r : Resource}
    (h : Resource.fromStr s = Except.ok r) : r.toStr = s := by
  simp only [Resource.fromStr] at h
  split_ifs at h with h1 h2 h3 h4 h5 h6
  · cases h
    rw [h2]
    rfl
  · cases h
    have hp := intercalate_splitOnChar ':' s
    rw [list_two ([] : Str) (splitOnChar ':' s) h4, intercalate_pair] at hp
    exact hp
  · cases h
    have hp := intercalate_splitOnChar ':' s
    rw [list_three ([] : Str) (splitOnChar ':' s) h5, intercalate_triple] at hp
    exact hp
  · cases h
    rfl
  · cases h
    rfl

/-- Inversion of a successful ARN parse: slice count, prefix, the parsed
resource, the assembled value and its validation. -/
theorem ARN.fromStr_ok {s : Str} {arn : ARN} (h : ARN.fromStr s = Except.ok arn) :
    ¬(splitOnChar ':' s).length < 6
    ∧ (splitOnChar ':' s).getD 0 [] = "arn".data
    ∧ ∃ res,
        Resource.fromStr (List.intercalate [':'] ((splitOnChar ':' s).drop 5)) =
          Except.ok res
        ∧ arn = assembleARN (splitOnChar ':' s) res
        ∧ arn.validate = Except.ok () := by
  simp only [ARN.fromStr] at h
  split_ifs at h with h1 h2
  refine ⟨h1, not_not.mp h2, ?_⟩
  cases hres : Resource.fromStr (List.intercalate [':'] ((splitOnChar ':' s).drop 5)) with
  | error e =>
    simp only [hres] at h
    exact absurd h (by simp)
  | ok res =>
    simp only [hres] at h
    cases hval : (assembleARN (splitOnChar ':' s) res).validate with
    | error e =>
      simp only [hval] at h
      exact absurd h (by simp)
    | ok u =>
      cases u
      simp only [hval] at h
      cases h
      exact ⟨res, rfl, rfl, hval⟩

/-- Evaluation of `ARN::from_str` when all steps succeed. -/
theorem ARN.fromStr_success {s : Str} {res : Resource}
    (h6 : ¬(splitOnChar ':' s).length < 6)
    (h0 : (splitOnChar ':' s).getD 0 [] = "arn".data)
    (hres : Resource.fromStr (List.intercalate [':'] ((splitOnChar ':' s).drop 5)) =
      Except.ok res)
    (hval : (assembleARN (splitOnChar ':' s) res).validate = Except.ok ()) :
    ARN.fromStr s = Except.ok (assembleARN (splitOnChar ':' s) res) := by
  simp only [ARN.fromStr]
  rw [if_neg h6, if_neg (not_not_intro h0)]
  simp only [hres, hval]

theorem intercalate_single (sep : List Char) (x : Str) :
    List.intercalate sep [x] = x := by
  simp [List.intercalate, List.intersperse]

theorem intercalate_append_last (sep : List Char) :
    ∀ xs ys : List Str, ys ≠ [] →
      List.intercalate sep (xs ++ [List.intercalate sep ys]) =
        List.intercalate sep (xs ++ ys)
  | [], ys, _ => by simp [intercalate_single]
  | [x], ys, hys => by
    obtain ⟨y, ys', rfl⟩ := List.exists_cons_of_ne_nil hys
    rw [List.cons_append, List.nil_append, intercalate_cons_cons, intercalate_single,
      List.cons_append, List.nil_append, intercalate_cons_cons]
  | x :: x2 :: xs2, ys, hys => by
    have ih := intercalate_append_last sep (x2 :: xs2) ys hys
    simp only [List.cons_append] at ih ⊢
    rw [intercalate_cons_cons, ih, ← intercalate_cons_cons]

theorem list_take_five :
    ∀ l : List Str, 6 ≤ l.length →
      l.take 5 = [l.getD 0 [], l.getD 1 [], l.getD 2 [], l.getD 3 [], l.getD 4 []]
  | _ :: _ :: _ :: _ :: _ :: _ :: _, _ => rfl
  | [], h => by simp only [List.length_nil] at h; omega
  | [_], h => by simp only [List.length_cons, List.length_nil] at h; omega
  | [_, _], h => by simp only [List.length_cons, List.length_nil] at h; omega
  | [_, _, _], h => by simp only [List.length_cons, List.length_nil] at h; omega
  | [_, _, _, _], h => by simp only [List.length_cons, List.length_nil] at h; omega
  | [_, _, _, _, _], h => by simp only [List.length_cons, List.length_nil] at h; omega

/-- The first of the six displayed fields never contains a colon, by
validation; splitting the display therefore peels the five leading fields
off and leaves the resource rendering. -/
theorem toStr_split {a : ARN} (hval : a.validate = Except.ok ()) :
    splitOnChar ':' a.toStr =
      "arn".data :: a.partition.getD ("aws".data) :: a.service ::
        a.region.getD [] :: a.account_id.getD [] ::
          splitOnChar ':' a.resource.toStr := by
  obtain ⟨hp, hsvc, hreg, hacct, _⟩ := (validate_ok_iff a).mp hval
  have hpc : ':' ∉ a.partition.getD ("aws".data) := by
    cases hq : a.partition with
    | none => decide
    | some p =>
      rw [hq] at hp
      exact (partitionMatch_spec ((checkPartition_some_ok_iff p).mp hp)).1
  have hsc : ':' ∉ a.service :=
    (identifierMatch_spec ((checkService_ok_iff _).mp hsvc)).1
  have hrc : ':' ∉ a.region.getD [] := by
    cases hq : a.region with
    | none => simp
    | some r =>
      rw [hq] at hreg
      exact (identifierMatch_spec ((checkRegion_some_ok_iff r).mp hreg)).1
  have hac : ':' ∉ a.account_id.getD [] := by
    cases hq : a.account_id with
    | none => simp
    | some x =>
      rw [hq] at hacct
      exact (checkAccount_spec hacct).1
  rw [ARN.toStr, intercalate_six,
    splitOnChar_append ':' ("arn".data) _ (by decide),
    splitOnChar_append ':' _ _ hpc,
    splitOnChar_append ':' _ _ hsc,
    splitOnChar_append ':' _ _ hrc,
    splitOnChar_append ':' _ _ hac]

example : splitOnChar ':' ("a:b".data) = ["a".data, "b".data] := by decide
example : splitOnChar ':' [] = [[]] := by decide
example : ARN.fromStr ("arn:aws:s3:us-east-1:123456789012:job/23476".data) =
    Except.ok
      { partition := some ("aws".data), service := "s3".data,
        region := some ("us-east-1".data), account_id := some ("123456789012".data),
        resource := Resource.Path ("job/23476".data) } := by decide

/-- Region and account-id getD-normalization: for a validated ARN the
if-rebuild of an optional field from its `getD []` rendering is the
identity. -/
theorem region_rebuild {o : Option Str} (hok : checkRegion o = Except.ok ()) :
    (if o.getD [] = [] then none else some (o.getD [])) = o := by
  cases o with
  | none => simp
  | some r =>
    have hr : r ≠ [] :=
      (identifierMatch_spec ((checkRegion_some_ok_iff r).mp hok)).2
    simp [hr]

theorem account_rebuild {o : Option Str} (hok : checkAccount o = Except.ok ()) :
    (if o.getD [] = [] then none else some (o.getD [])) = o := by
  cases o with
  | none => simp
  | some x =>
    have hx : x ≠ [] := (checkAccount_spec hok).2
    simp [hx]

/-- The default-or-stored partition rendering of a validated ARN is
non-empty and matches the partition grammar. -/
theorem partition_getD_spec {o : Option Str} (hok : checkPartition o = Except.ok ()) :
    (o.getD ("aws".data) ≠ []) ∧ partitionMatch (o.getD ("aws".data)) = true := by
  cases o with
  | none => exact ⟨by decide, by decide⟩
  | some p =>
    have hm : partitionMatch p = true := (checkPartition_some_ok_iff p).mp hok
    exact ⟨(partitionMatch_spec hm).2, hm⟩

/-- C1 (amended): for every string that parses successfully and whose
partition, region and account slices are non-empty, displaying the parsed
ARN reproduces the input exactly; and for every string that parses
successfully, displaying and re-parsing succeeds and reproduces the
service, region, account id and resource fields exactly, while the
re-parsed partition is `some` of the first parse's partition-or-default
(so it equals the original partition whenever that was present, and is
`some "aws"` when it was absent). -/
theorem C1_roundtrip (s : Str) (arn : ARN) (h : ARN.fromStr s = Except.ok arn) :
    (((splitOnChar ':' s).getD 1 [] ≠ [] ∧ (splitOnChar ':' s).getD 3 [] ≠ []
        ∧ (splitOnChar ':' s).getD 4 [] ≠ []) → arn.toStr = s)
    ∧ ∃ arn2, ARN.fromStr arn.toStr = Except.ok arn2
        ∧ arn2.partition = some (arn.partition.getD ("aws".data))
        ∧ arn2.service = arn.service
        ∧ arn2.region = arn.region
        ∧ arn2.account_id = arn.account_id
        ∧ arn2.resource = arn.resource := by
  obtain ⟨h6, h0, res, hres, harn, hval⟩ := ARN.fromStr_ok h
  subst harn
  have hlen : 6 ≤ (splitOnChar ':' s).length := by omega
  have hres' : res.toStr = List.intercalate [':'] ((splitOnChar ':' s).drop 5) :=
    Resource.toStr_fromStr hres
  have hdrop_ne : (splitOnChar ':' s).drop 5 ≠ [] := by
    intro he
    have := congrArg List.length he
    simp only [List.length_drop, List.length_nil] at this
    omega
  obtain ⟨hp, hsvc, hreg, hacct, hresv⟩ := (validate_ok_iff _).mp hval
  constructor
  · rintro ⟨hp1, hp3, hp4⟩
    show ARN.toStr (assembleARN (splitOnChar ':' s) res) = s
    rw [ARN.toStr]
    simp only [assembleARN]
    rw [if_neg hp1, if_neg hp3, if_neg hp4]
    simp only [Option.getD_some]
    rw [hres']
    have htake : (splitOnChar ':' s).take 5 =
        ["arn".data, (splitOnChar ':' s).getD 1 [], (splitOnChar ':' s).getD 2 [],
          (splitOnChar ':' s).getD 3 [], (splitOnChar ':' s).getD 4 []] := by
      rw [list_take_five (splitOnChar ':' s) hlen, h0]
    have happ := intercalate_append_last [':']
      (["arn".data, (splitOnChar ':' s).getD 1 [], (splitOnChar ':' s).getD 2 [],
        (splitOnChar ':' s).getD 3 [], (splitOnChar ':' s).getD 4 []])
      ((splitOnChar ':' s).drop 5) hdrop_ne
    rw [show (["arn".data, (splitOnChar ':' s).getD 1 [], (splitOnChar ':' s).getD 2 [],
        (splitOnChar ':' s).getD 3 [], (splitOnChar ':' s).getD 4 []] ++
          [List.intercalate [':'] ((splitOnChar ':' s).drop 5)]) =
      ["arn".data, (splitOnChar ':' s).getD 1 [], (splitOnChar ':' s).getD 2 [],
        (splitOnChar ':' s).getD 3 [], (splitOnChar ':' s).getD 4 [],
        List.intercalate [':'] ((splitOnChar ':' s).drop 5)] from rfl] at happ
    rw [happ, ← htake, List.take_append_drop]
    exact intercalate_splitOnChar ':' s
  · have hsplit := toStr_split hval
    have hBne := (partition_getD_spec hp).1
    have hBmatch := (partition_getD_spec hp).2
    have len2 : ¬(splitOnChar ':' ((assembleARN (splitOnChar ':' s) res).toStr)).length < 6 := by
      rw [hsplit]
      obtain ⟨hd, tl, hx⟩ := splitOnChar_exists ':' ((assembleARN (splitOnChar ':' s) res).resource.toStr)
      rw [hx]
      simp only [List.length_cons]
      omega
    have h02 : (splitOnChar ':' ((assembleARN (splitOnChar ':' s) res).toStr)).getD 0 [] =
        "arn".data := by
      rw [hsplit]
      rfl
    have hdrop2 : (splitOnChar ':' ((assembleARN (splitOnChar ':' s) res).toStr)).drop 5 =
        splitOnChar ':' ((assembleARN (splitOnChar ':' s) res).resource.toStr) := by
      rw [hsplit]
      rfl
    have hres2 : Resource.fromStr (List.intercalate [':']
        ((splitOnChar ':' ((assembleARN (splitOnChar ':' s) res).toStr)).drop 5)) =
        Except.ok res := by
      rw [hdrop2, intercalate_splitOnChar]
      show Resource.fromStr res.toStr = Except.ok res
      rw [hres']
      exact hres
    have hfield : assembleARN (splitOnChar ':' ((assembleARN (splitOnChar ':' s) res).toStr)) res =
        { partition := some ((assembleARN (splitOnChar ':' s) res).partition.getD ("aws".data)),
          service := (assembleARN (splitOnChar ':' s) res).service,
          region := (assembleARN (splitOnChar ':' s) res).region,
          account_id := (assembleARN (splitOnChar ':' s) res).account_id,
          resource := res } := by
      conv =>
        lhs
        rw [assembleARN, hsplit]
      simp only [List.getD_cons_succ, List.getD_cons_zero]
      rw [if_neg hBne, region_rebuild hreg, account_rebuild hacct]
    have hval2 : (assembleARN (splitOnChar ':'
        ((assembleARN (splitOnChar ':' s) res).toStr)) res).validate = Except.ok () := by
      rw [hfield]
      apply (validate_ok_iff _).mpr
      exact ⟨(checkPartition_some_ok_iff _).mpr hBmatch, hsvc, hreg, hacct, hresv⟩
    refine ⟨assembleARN (splitOnChar ':' ((assembleARN (splitOnChar ':' s) res).toStr)) res,
      ARN.fromStr_success len2 h02 hres2 hval2, ?_, ?_, ?_, ?_, ?_⟩
    · rw [hfield]
    · rw [hfield]
    · rw [hfield]
    · rw [hfield]
    · rw [hfield]
      rfl

/-- C1, counterexample: `"arn::s3:::thing"` parses with `partition = none`,
but displaying and re-parsing yields `partition = some "aws"`, so the five
fields of the re-parse are not all equal to those of the first parse. -/
theorem C1_counterexample :
    Except.map (fun a : ARN => a.partition) (ARN.fromStr ("arn::s3:::thing".data)) =
      Except.ok none
    ∧ ((ARN.fromStr ("arn::s3:::thing".data)).bind fun a =>
        Except.map (fun b : ARN => b.partition) (ARN.fromStr a.toStr)) =
      Except.ok (some ("aws".data))
    ∧ (none : Option Str) ≠ some ("aws".data) := by decide

/-- C2, counterexample: `"a:b:c:d"` is a non-empty string of printable
ASCII characters, yet `Resource::from_str` rejects it (splitting on `':'`
yields four slices), contradicting the claim that every non-empty
printable-ASCII string is accepted no matter how many `':'` characters it
contains. -/
theorem C2_counterexample :
    Resource.fromStr ("a:b:c:d".data) =
      Except.error (ArnError.InvalidResource ("a:b:c:d".data))
    ∧ ("a:b:c:d".data ≠ [])
    ∧ ("a:b:c:d".data).all printableAscii = true := by decide

/-- C3, counterexample: `"12345678901*"` (11 digits plus a wildcard, 12
characters in total) is rejected by the account-id check of
`ARN::validate`, which accepts only exactly-12-digit strings. -/
theorem C3_counterexample :
    checkAccount (some ("12345678901*".data)) = Except.error ArnError.InvalidAccountId
    ∧ ARN.validate
        { partition := none, service := "s3".data, region := none,
          account_id := some ("12345678901*".data),
          resource := Resource.Id ("x".data) } =
      Except.error ArnError.InvalidAccountId := by decide

/-- C4, counterexample: `"_"` is non-empty and contains no space, `'/'`,
`':'` or control character, yet the `IDENTIFIER` check rejects it (the
regex requires a leading ASCII letter followed by at least one more
letter, digit or hyphen). -/
theorem C4_counterexample :
    checkService ("_".data) = Except.error ArnError.InvalidService
    ∧ ARN.validate
        { partition := none, service := "_".data, region := none,
          account_id := none, resource := Resource.Id ("x".data) } =
      Except.error ArnError.InvalidService
    ∧ ("_".data ≠ [])
    ∧ ("_".data).all (fun c => printableAscii c && !(c = ' ' || c = '/' || c = ':')) = true := by
  decide

/-- C6, counterexample: in `"arn:xyz:s3:::"` the partition slice `"xyz"` is
non-empty and does not match the partition grammar, yet parsing fails with
`MissingResource` (the resource slice is parsed before `validate` runs),
not with `InvalidPartition`. -/
theorem C6_counterexample :
    ARN.fromStr ("arn:xyz:s3:::".data) = Except.error ArnError.MissingResource
    ∧ partitionMatch ("xyz".data) = false
    ∧ ("xyz".data ≠ []) := by decide

/-- C7: displaying an ARN produces exactly
`"arn:" ++ partition-or-default ++ ":" ++ service ++ ":" ++
region-or-empty ++ ":" ++ account-or-empty ++ ":" ++ resource`, where an
absent partition is replaced by `"aws"` and an absent region or account id
by the empty string; in particular the minimal s3 ARN displays as
`"arn:aws:s3:::mythings/thing-1"`. -/
theorem C7_display_format :
    (∀ a : ARN, a.toStr =
      "arn:".data ++ a.partition.getD ("aws".data) ++ ":".data ++ a.service ++
        ":".data ++ a.region.getD [] ++ ":".data ++ a.account_id.getD [] ++
        ":".data ++ a.resource.toStr)
    ∧ ARN.toStr
        { partition := none, service := "s3".data, region := none, account_id := none,
          resource := Resource.Path ("mythings/thing-1".data) } =
      "arn:aws:s3:::mythings/thing-1".data := by
  constructor
  · intro a
    simp [ARN.toStr, List.intercalate, List.intersperse]
  · decide

/-- C9: `ResourceBuilder::new` panics (modelled as `none`) for every input
containing `':'`; for any other input it returns a builder holding
`Resource::Path` of the input when it contains `'/'`, else
`Resource::Id` of the input. -/
theorem C9_resource_builder_new (s : Str) :
    (':' ∈ s → ResourceBuilder.new s = none)
    ∧ (':' ∉ s → '/' ∈ s →
        ResourceBuilder.new s = some (ResourceBuilder.mk (Resource.Path s)))
    ∧ (':' ∉ s → '/' ∉ s →
        ResourceBuilder.new s = some (ResourceBuilder.mk (Resource.Id s))) := by
  refine ⟨fun h => ?_, fun h1 h2 => ?_, fun h1 h2 => ?_⟩
  · simp [ResourceBuilder.new, h]
  · simp [ResourceBuilder.new, h1, h2]
  · simp [ResourceBuilder.new, h1, h2]

/-- C9 witness: the three behaviours at concrete inputs. -/
theorem C9_resource_builder_new_witness :
    ResourceBuilder.new ("a:b".data) = none
    ∧ ResourceBuilder.new ("a/b".data) =
        some (ResourceBuilder.mk (Resource.Path ("a/b".data)))
    ∧ ResourceBuilder.new ("ab".data) =
        some (ResourceBuilder.mk (Resource.Id ("ab".data))) :=
  ⟨(C9_resource_builder_new ("a:b".data)).1 (by decide),
   (C9_resource_builder_new ("a/b".data)).2.1 (by decide) (by decide),
   (C9_resource_builder_new ("ab".data)).2.2 (by decide) (by decide)⟩

/-- C10: `Resource::validate` checks only forbidden characters, never
non-emptiness — every variant with empty string fields validates `Ok` —
so an ARN built directly with an empty resource id passes `ARN::validate`,
yet its displayed string ends in `':'` and fails to re-parse with
`MissingResource`: the display-then-parse round trip fails for this
validated ARN value. -/
theorem C10_empty_resource_validation_gap :
    Resource.validate (Resource.Id []) = Except.ok ()
    ∧ Resource.validate (Resource.Path []) = Except.ok ()
    ∧ Resource.validate (Resource.TypedId [] []) = Except.ok ()
    ∧ Resource.validate (Resource.QTypedId [] [] []) = Except.ok ()
    ∧ Resource.validate Resource.Any = Except.ok ()
    ∧ ARN.validate emptyIdArn = Except.ok ()
    ∧ ARN.toStr emptyIdArn = "arn:aws:s3:::".data
    ∧ (ARN.toStr emptyIdArn).getLast? = some ':'
    ∧ ARN.fromStr (ARN.toStr emptyIdArn) = Except.error ArnError.MissingResource := by
  decide

/-- C1 witness: the round-trip theorem applied to a concrete ARN string
with all fields present. -/
theorem C1_roundtrip_witness :
    c1Arn.toStr = "arn:aws:s3:us-east-1:123456789012:thing".data :=
  (C1_roundtrip ("arn:aws:s3:us-east-1:123456789012:thing".data) c1Arn (by decide)).1
    (by decide)

/-- C5: parsing fails with `TooFewComponents` whenever splitting on `':'`
yields fewer than 6 slices — equivalently whenever the input has fewer
than five colons, so `""` and `"not-an-arn"` fail this way — and when at
least 6 slices are present but slice 0 is not the literal `"arn"` it fails
with `MissingPrefix`; the slice-count check takes precedence (no prefix
condition appears in the `TooFewComponents` cases). -/
theorem C5_slice_count_checks (s : Str) :
    (List.count ':' s < 5 → ARN.fromStr s = Except.error ArnError.TooFewComponents)
    ∧ ((splitOnChar ':' s).length < 6 → ARN.fromStr s = Except.error ArnError.TooFewComponents)
    ∧ (¬(splitOnChar ':' s).length < 6 → (splitOnChar ':' s).getD 0 [] ≠ "arn".data →
        ARN.fromStr s = Except.error ArnError.MissingPrefix)
    ∧ ARN.fromStr [] = Except.error ArnError.TooFewComponents
    ∧ ARN.fromStr ("not-an-arn".data) = Except.error ArnError.TooFewComponents := by
  refine ⟨?_, ?_, ?_, by decide, by decide⟩
  · intro hc
    have hl := length_splitOnChar ':' s
    have hlt : (splitOnChar ':' s).length < 6 := by omega
    simp only [ARN.fromStr]
    rw [if_pos hlt]
  · intro hlt
    simp only [ARN.fromStr]
    rw [if_pos hlt]
  · intro hge hpre
    simp only [ARN.fromStr]
    rw [if_neg hge, if_pos hpre]

/-- C5 witness: a two-slice string fails with `TooFewComponents` even
though its prefix is also wrong, and a six-slice string with a wrong
prefix fails with `MissingPrefix`. -/
theorem C5_witness :
    ARN.fromStr ("a:b".data) = Except.error ArnError.TooFewComponents
    ∧ ARN.fromStr ("x:aws:s3:us-east-1:123456789012:thing".data) =
        Except.error ArnError.MissingPrefix :=
  ⟨(C5_slice_count_checks ("a:b".data)).1 (by decide),
   (C5_slice_count_checks ("x:aws:s3:us-east-1:123456789012:thing".data)).2.2.1
     (by decide) (by decide)⟩

/-- C3 (amended): the account-id check of `ARN::validate` accepts exactly
the strings of twelve ASCII digits; `"123456789012"` is accepted and
`"123456789"` rejected as the claim says, but wildcard forms such as
`"12345678901*"` are rejected too. -/
theorem C3_account_validation (a : Str) :
    (checkAccount (some a) = Except.ok () ↔
      (a.length = 12 ∧ a.all Char.isDigit = true))
    ∧ checkAccount (some ("123456789012".data)) = Except.ok ()
    ∧ checkAccount (some ("123456789".data)) = Except.error ArnError.InvalidAccountId
    ∧ checkAccount (some ("12345678901*".data)) = Except.error ArnError.InvalidAccountId := by
  refine ⟨?_, by decide, by decide, by decide⟩
  simp only [checkAccount]
  split
  · next h =>
    simp only [Bool.and_eq_true, decide_eq_true_eq] at h
    exact iff_of_true rfl h
  · next h =>
    simp only [Bool.and_eq_true, decide_eq_true_eq] at h
    exact iff_of_false (by simp) h

/-- Structural characterisation of the `IDENTIFIER` regex. -/
theorem identifierMatch_iff (s : Str) :
    identifierMatch s = true ↔
      ∃ c rest, s = c :: rest ∧ c.isAlpha = true ∧ rest ≠ [] ∧
        rest.all isIdentChar = true := by
  cases s with
  | nil =>
    simp [identifierMatch]
  | cons c rest =>
    simp only [identifierMatch, Bool.and_eq_true, Bool.not_eq_true']
    constructor
    · rintro ⟨⟨h1, h2⟩, h3⟩
      exact ⟨c, rest, rfl, h1, by simpa using h2, h3⟩
    · rintro ⟨c2, rest2, he, h1, h2, h3⟩
      cases he
      exact ⟨⟨h1, by simpa using h2⟩, h3⟩

/-- A character of a string matching `IDENTIFIER` is a letter or in the
identifier class. -/
theorem identifierMatch_mem {s : Str} (h : identifierMatch s = true) {c : Char}
    (hc : c ∈ s) : c.isAlpha = true ∨ isIdentChar c = true := by
  obtain ⟨c2, rest2, rfl, h1, _, h3⟩ := (identifierMatch_iff s).mp h
  rcases List.mem_cons.mp hc with rfl | hmem
  · exact Or.inl h1
  · exact Or.inr (List.all_eq_true.mp h3 _ hmem)

/-- C4 (amended): the `IDENTIFIER` check used for the service and region
fields fails for every string containing a space, `'/'` or `':'`, and
succeeds exactly for strings made of an ASCII letter followed by one or
more ASCII letters, digits or hyphens — not for every non-empty string
avoiding spaces, `'/'`, `':'` and control characters. -/
theorem C4_identifier_validation (s : Str) :
    ((' ' ∈ s ∨ '/' ∈ s ∨ ':' ∈ s) →
      checkService s = Except.error ArnError.InvalidService)
    ∧ ((' ' ∈ s ∨ '/' ∈ s ∨ ':' ∈ s) →
      checkRegion (some s) = Except.error ArnError.InvalidRegion)
    ∧ (checkService s = Except.ok () ↔
        ∃ c rest, s = c :: rest ∧ c.isAlpha = true ∧ rest ≠ [] ∧
          rest.all isIdentChar = true)
    ∧ (checkRegion (some s) = Except.ok () ↔
        ∃ c rest, s = c :: rest ∧ c.isAlpha = true ∧ rest ≠ [] ∧
          rest.all isIdentChar = true) := by
  have hbad : (' ' ∈ s ∨ '/' ∈ s ∨ ':' ∈ s) → identifierMatch s = false := by
    intro hmem
    by_contra hne
    have hm : identifierMatch s = true := by
      cases hq : identifierMatch s
      · exact absurd hq hne
      · rfl
    rcases hmem with e | e | e <;> rcases identifierMatch_mem hm e with ha | ha <;>
      exact absurd ha (by decide)
  refine ⟨?_, ?_, ?_, ?_⟩
  · intro hmem
    simp only [checkService]
    rw [if_neg (by simp [hbad hmem])]
  · intro hmem
    simp only [checkRegion]
    rw [if_neg (by simp [hbad hmem])]
  · rw [checkService_ok_iff]
    exact identifierMatch_iff s
  · rw [checkRegion_some_ok_iff]
    exact identifierMatch_iff s

/-- C4 witness: the failure cases at concrete inputs containing a space,
`'/'` and `':'` respectively. -/
theorem C4_identifier_validation_witness :
    checkService ("a b".data) = Except.error ArnError.InvalidService
    ∧ checkService ("a/b".data) = Except.error ArnError.InvalidService
    ∧ checkRegion (some ("a:b".data)) = Except.error ArnError.InvalidRegion :=
  ⟨(C4_identifier_validation ("a b".data)).1 (Or.inl (by decide)),
   (C4_identifier_validation ("a/b".data)).1 (Or.inr (Or.inl (by decide))),
   (C4_identifier_validation ("a:b".data)).2.1 (Or.inr (Or.inr (by decide)))⟩

/-- A result whose `isOk` is true is an `ok`. -/
theorem isOk_exists {e a : Type} {x : Except e a} (h : x.isOk = true) :
    ∃ v, x = Except.ok v := by
  cases x with
  | error err => simp [Except.isOk, Except.toBool] at h
  | ok v => exact ⟨v, rfl⟩

/-- Evaluation of `ARN::from_str` when the resource parses but validation
fails: the validation error is returned. -/
theorem ARN.fromStr_failure {s : Str} {res : Resource} {e : ArnError}
    (h6 : ¬(splitOnChar ':' s).length < 6)
    (h0 : (splitOnChar ':' s).getD 0 [] = "arn".data)
    (hres : Resource.fromStr (List.intercalate [':'] ((splitOnChar ':' s).drop 5)) =
      Except.ok res)
    (hval : (assembleARN (splitOnChar ':' s) res).validate = Except.error e) :
    ARN.fromStr s = Except.error e := by
  simp only [ARN.fromStr]
  rw [if_neg h6, if_neg (not_not_intro h0)]
  simp only [hres, hval]

/-- C6 (amended): an empty partition slice parses to `none`, and a
successfully parsed non-empty partition slice is stored as-is and matches
the partition grammar (`"aws"` or `"aws-"` plus letter plus one or more
letters, digits or hyphens); a non-empty, non-matching partition slice
makes parsing fail with `InvalidPartition` provided the resource portion
itself parses (a resource-parse failure takes precedence and is reported
instead). -/
theorem C6_partition_rule (s : Str) (arn : ARN) :
    (ARN.fromStr s = Except.ok arn →
      ((arn.partition = none ↔ (splitOnChar ':' s).getD 1 [] = [])
       ∧ ∀ p, arn.partition = some p →
           p = (splitOnChar ':' s).getD 1 [] ∧ partitionMatch p = true))
    ∧ (¬(splitOnChar ':' s).length < 6 →
        (splitOnChar ':' s).getD 0 [] = "arn".data →
        (splitOnChar ':' s).getD 1 [] ≠ [] →
        partitionMatch ((splitOnChar ':' s).getD 1 []) = false →
        (Resource.fromStr (List.intercalate [':'] ((splitOnChar ':' s).drop 5))).isOk
          = true →
        ARN.fromStr s = Except.error ArnError.InvalidPartition) := by
  constructor
  · intro h
    obtain ⟨h6, h0, res, hres, harn, hval⟩ := ARN.fromStr_ok h
    obtain ⟨hp, _, _, _, _⟩ := (validate_ok_iff _).mp hval
    subst harn
    have hproj : (assembleARN (splitOnChar ':' s) res).partition =
        (if (splitOnChar ':' s).getD 1 [] = [] then none
         else some ((splitOnChar ':' s).getD 1 [])) := rfl
    by_cases hq : (splitOnChar ':' s).getD 1 [] = []
    · constructor
      · rw [hproj, if_pos hq]
        exact iff_of_true rfl hq
      · intro p hp2
        rw [hproj, if_pos hq] at hp2
        simp at hp2
    · constructor
      · rw [hproj, if_neg hq]
        exact iff_of_false (by simp) hq
      · intro p hp2
        rw [hproj, if_neg hq] at hp2
        injection hp2 with he
        refine ⟨he.symm, ?_⟩
        rw [hproj, if_neg hq] at hp
        rw [← he]
        exact (checkPartition_some_ok_iff _).mp hp
  · intro h6 h0 h1ne hmatch hok
    obtain ⟨res, hres⟩ := isOk_exists hok
    apply ARN.fromStr_failure h6 h0 hres
    show (assembleARN (splitOnChar ':' s) res).validate =
      Except.error ArnError.InvalidPartition
    unfold ARN.validate
    have hproj : (assembleARN (splitOnChar ':' s) res).partition =
        (if (splitOnChar ':' s).getD 1 [] = [] then none
         else some ((splitOnChar ':' s).getD 1 [])) := rfl
    rw [hproj, if_neg h1ne]
    have hcp : checkPartition (some ((splitOnChar ':' s).getD 1 [])) =
        Except.error ArnError.InvalidPartition := by
      simp only [checkPartition]
      rw [if_neg (by rw [hmatch]; simp)]
    rw [hcp]
    rfl

/-- C6 witness: the parsed partition of `"arn:aws:s3:::x"` equals its
second slice and matches the grammar, and `"arn:foo:s3:::x"` (bad
partition, parsable resource) fails with `InvalidPartition`. -/
theorem C6_partition_rule_witness :
    ("aws".data = (splitOnChar ':' ("arn:aws:s3:::x".data)).getD 1 []
      ∧ partitionMatch ("aws".data) = true)
    ∧ ARN.fromStr ("arn:foo:s3:::x".data) = Except.error ArnError.InvalidPartition :=
  ⟨((C6_partition_rule ("arn:aws:s3:::x".data) c6Arn).1 (by decide)).2 ("aws".data)
      (by decide),
   (C6_partition_rule ("arn:foo:s3:::x".data) c6Arn).2 (by decide) (by decide)
      (by decide) (by decide) (by decide)⟩

/-- C2 (amended): `Resource::from_str` fails exactly when the input is
empty or contains three or more `':'` characters (four or more
colon-separated slices); the empty string fails with `MissingResource`
and the many-colon case with `InvalidResource` carrying the original
string; every other string is accepted — regardless of `'/'` characters,
control characters or non-ASCII characters. -/
theorem C2_resource_parse (s : Str) :
    ((Resource.fromStr s).isOk = false ↔ (s = [] ∨ 3 ≤ List.count ':' s))
    ∧ Resource.fromStr [] = Except.error ArnError.MissingResource
    ∧ (s ≠ [] → 3 ≤ List.count ':' s →
        Resource.fromStr s = Except.error (ArnError.InvalidResource s)) := by
  refine ⟨?_, by decide, ?_⟩
  · simp only [Resource.fromStr]
    split_ifs with h1 h2 h3 h4 h5 h6
    · simp [Except.isOk, Except.toBool, h1]
    · subst h2
      decide
    · have hc := length_splitOnChar ':' s
      rw [h4] at hc
      exact iff_of_false (by simp [Except.isOk, Except.toBool]) (by push_neg; exact ⟨h1, by omega⟩)
    · have hc := length_splitOnChar ':' s
      rw [h5] at hc
      exact iff_of_false (by simp [Except.isOk, Except.toBool]) (by push_neg; exact ⟨h1, by omega⟩)
    · have hc := length_splitOnChar ':' s
      have hmem : 0 < List.count ':' s := List.count_pos_iff.mpr h3
      exact iff_of_true (by simp [Except.isOk, Except.toBool]) (Or.inr (by omega))
    · have hc0 : List.count ':' s = 0 := List.count_eq_zero.mpr h3
      exact iff_of_false (by simp [Except.isOk, Except.toBool]) (by push_neg; exact ⟨h1, by omega⟩)
    · have hc0 : List.count ':' s = 0 := List.count_eq_zero.mpr h3
      exact iff_of_false (by simp [Except.isOk, Except.toBool]) (by push_neg; exact ⟨h1, by omega⟩)
  · intro hne hcount
    simp only [Resource.fromStr]
    have hstar : ¬s = "*".data := by
      intro e
      rw [e] at hcount
      exact absurd hcount (by decide)
    have hmem : ':' ∈ s := List.count_pos_iff.mp (by omega)
    have hc := length_splitOnChar ':' s
    rw [if_neg hne, if_neg hstar, if_pos hmem, if_neg (by omega), if_neg (by omega)]

/-- C2 witness: a non-empty string with three colons fails with
`InvalidResource` carrying the original string. -/
theorem C2_resource_parse_witness :
    Resource.fromStr ("p:q:r:t".data) =
      Except.error (ArnError.InvalidResource ("p:q:r:t".data)) :=
  (C2_resource_parse ("p:q:r:t".data)).2.2 (by decide) (by decide)

theorem substVars_nil (ctx : List (Str × Str)) : substVars ctx [] = [] := by
  simp [substVars]

theorem substVars_cons_ne (ctx : List (Str × Str)) {c : Char} (h : ¬c = '$')
    (cs : List Char) : substVars ctx (c :: cs) = c :: substVars ctx cs := by
  rw [substVars.eq_def]
  simp [h]

theorem substVars_append_lit (ctx : List (Str × Str)) :
    ∀ p t : List Char, '$' ∉ p → substVars ctx (p ++ t) = p ++ substVars ctx t
  | [], t, _ => by simp
  | c :: p', t, h => by
    have hc : ¬c = '$' := fun e => h (e ▸ List.mem_cons_self c p')
    have ih := substVars_append_lit ctx p' t (fun hm => h (List.mem_cons_of_mem c hm))
    rw [List.cons_append, substVars_cons_ne ctx hc, ih]
    simp

theorem findVarEnd_render :
    ∀ n t : List Char, (∀ c ∈ n, ¬c = '$' ∧ ¬c = '{' ∧ ¬c = '}') →
      Option.map Subtype.val (findVarEnd (n ++ '}' :: t)) = some (n, t)
  | [], t, _ => by simp [findVarEnd]
  | c :: n', t, hch => by
    have hc := hch c (List.mem_cons_self c n')
    have ih := findVarEnd_render n' t (fun x hx => hch x (List.mem_cons_of_mem c hx))
    rw [List.cons_append, findVarEnd.eq_def]
    simp only []
    rw [if_neg hc.2.2, if_neg (by rintro (e | e); exacts [hc.1 e, hc.2.1 e])]
    cases hq : findVarEnd (n' ++ '}' :: t) with
    | none => rw [hq] at ih; simp at ih
    | some pb =>
      rw [hq] at ih
      obtain ⟨p, hb⟩ := pb
      simp only [Option.map_some', Option.some.injEq] at ih
      subst ih
      simp

theorem substVars_var (ctx : List (Str × Str)) (n t : List Char) (hn : ¬n = [])
    (hch : ∀ c ∈ n, ¬c = '$' ∧ ¬c = '{' ∧ ¬c = '}') :
    substVars ctx ('$' :: '{' :: (n ++ '}' :: t)) =
      (match lookupCtx ctx n with
       | some v => v
       | none => '$' :: '{' :: (n ++ ['}'])) ++ substVars ctx t := by
  have hfe := findVarEnd_render n t hch
  cases hq : findVarEnd (n ++ '}' :: t) with
  | none => rw [hq] at hfe; simp at hfe
  | some pb =>
    rw [hq] at hfe
    obtain ⟨p, hb⟩ := pb
    simp only [Option.map_some', Option.some.injEq] at hfe
    subst hfe
    have hie : n.isEmpty = false := by
      cases n with
      | nil => exact absurd rfl hn
      | cons a l => rfl
    rw [substVars.eq_def]
    simp [hq, hie]

theorem substVars_renderSegs (ctx : List (Str × Str)) :
    ∀ segs : List Seg, (∀ g ∈ segs, Seg.wf g = true) →
      substVars ctx (renderSegs segs) = renderSegs (segs.map (Seg.subst ctx))
  | [], _ => by simp [renderSegs, substVars]
  | Seg.lit s :: rest, hwf => by
    have hs : '$' ∉ s := by
      have hw := hwf _ (List.mem_cons_self _ _)
      simp [Seg.wf] at hw
      exact hw
    have ih := substVars_renderSegs ctx rest (fun g hg => hwf g (List.mem_cons_of_mem _ hg))
    simp only [renderSegs, List.map_cons, List.flatten_cons, Seg.render, Seg.subst] at ih ⊢
    rw [substVars_append_lit ctx s _ hs, ih]
  | Seg.var n :: rest, hwf => by
    have hw := hwf _ (List.mem_cons_self _ _)
    simp only [Seg.wf, Bool.and_eq_true, Bool.not_eq_true', List.all_eq_true] at hw
    obtain ⟨hne, hall⟩ := hw
    have hne2 : ¬n = [] := by
      intro e
      rw [e] at hne
      simp at hne
    have hch : ∀ c ∈ n, ¬c = '$' ∧ ¬c = '{' ∧ ¬c = '}' := by
      intro c hc
      have := hall c hc
      simp only [Bool.and_eq_true, Bool.not_eq_true', beq_eq_false_iff_ne, ne_eq] at this
      exact ⟨this.1.1, this.1.2, this.2⟩
    have ih := substVars_renderSegs ctx rest (fun g hg => hwf g (List.mem_cons_of_mem _ hg))
    simp only [renderSegs, List.map_cons, List.flatten_cons, Seg.render] at ih ⊢
    rw [show ('$' :: '{' :: (n ++ ['}'])) ++ (rest.map Seg.render).flatten =
      '$' :: '{' :: (n ++ '}' :: (rest.map Seg.render).flatten) by simp]
    rw [substVars_var ctx n _ hne2 hch, ih]
    cases hl : lookupCtx ctx n <;>
      simp [Seg.subst, hl, Seg.render, renderSegs]

/-- C8 (spec-modelled): `replace_variables` substitutes the context value
for every `${name}` placeholder whose name is a context key, leaves
placeholders with unknown names untouched, and re-validates the
substituted string, failing with `InvalidResource` when a replacement
introduces a disallowed character such as a newline; on the example
resource and context the result is as the claim states. -/
theorem C8_replace_variables (ctx : List (Str × Str)) (segs : List Seg) (r s2 : Str) :
    ((∀ g ∈ segs, Seg.wf g = true) →
      substVars ctx (renderSegs segs) = renderSegs (segs.map (Seg.subst ctx)))
    ∧ (replaceVariables ctx r = Except.ok s2 → riValid s2 = true)
    ∧ (riValid (substVars ctx r) = false →
        replaceVariables ctx r =
          Except.error (ArnError.InvalidResource (substVars ctx r)))
    ∧ replaceVariables [("name".data, "Simon".data)] ("${greeting} ${name}!".data) =
        Except.ok ("${greeting} Simon!".data)
    ∧ replaceVariables [("name".data, "Si\nmon".data)] ("${greeting} ${name}!".data) =
        Except.error (ArnError.InvalidResource ("${greeting} Si\nmon!".data)) := by
  refine ⟨substVars_renderSegs ctx segs, ?_, ?_, ?_, ?_⟩
  · intro hok
    simp only [replaceVariables, riParse] at hok
    split_ifs at hok with hv
    cases hok
    exact hv
  · intro hbad
    simp only [replaceVariables, riParse]
    rw [if_neg (by simp [hbad])]
  · have hs : substVars [("name".data, "Simon".data)] ("${greeting} ${name}!".data) =
        "${greeting} Simon!".data := by
      simp [substVars, findVarEnd, lookupCtx]
    simp only [replaceVariables, hs]
    decide
  · have hs : substVars [("name".data, "Si\nmon".data)] ("${greeting} ${name}!".data) =
        "${greeting} Si\nmon!".data := by
      simp [substVars, findVarEnd, lookupCtx]
    simp only [replaceVariables, hs]
    decide

/-- C8 witness: the token-level substitution equation instantiated at the
example template, the re-validation conjunct at a valid input, and the
failure conjunct at a newline input. -/
theorem C8_replace_variables_witness :
    substVars [("name".data, "Simon".data)]
        (renderSegs [Seg.var ("greeting".data), Seg.lit (" ".data),
          Seg.var ("name".data), Seg.lit ("!".data)]) =
      renderSegs ([Seg.var ("greeting".data), Seg.lit (" ".data),
        Seg.var ("name".data), Seg.lit ("!".data)].map
          (Seg.subst [("name".data, "Simon".data)]))
    ∧ riValid ("x".data) = true
    ∧ replaceVariables [] ("\n".data) =
        Except.error (ArnError.InvalidResource (substVars [] ("\n".data))) :=
  ⟨(C8_replace_variables [("name".data, "Simon".data)]
      [Seg.var ("greeting".data), Seg.lit (" ".data), Seg.var ("name".data),
        Seg.lit ("!".data)] [] []).1 (by decide),
   (C8_replace_variables [] [] ("x".data) ("x".data)).2.1
     (by simp [replaceVariables, riParse, substVars, riValid, printableAscii]),
   (C8_replace_variables [] [] ("\n".data) []).2.2.1
     (by
       have hs : substVars [] ("\n".data) = "\n".data := by simp [substVars]
       rw [hs]
       decide)⟩
